import Mathlib

/-!
Verification of the scoring and competitor-ranking pipeline of the
youtube-analytics repository (files scraping_1_2.py, scraping_1_4.py,
scraping_1_5.py).

Conventions of the embedding:
* Python floats are modelled as exact rationals (`ℚ`); `round(x, d)` is
  modelled by `pyRound x d` below.
* Python strings are Lean `String`s; `str.lower()` is ASCII lower-casing.
* The regex `\b[a-zA-Z]{k,}\b` extracts maximal runs of word characters
  (ASCII letters, digits, underscore) that consist purely of letters and
  have length at least `k`; `extractWords` implements exactly that.
* API calls are modelled by passing their outcome (`Except HttpError ...`)
  or their result lists as explicit arguments; the subsequent pure
  processing is translated verbatim.
-/

namespace YT

/-- Model of Python `round(x, d)` on rationals (`round` in Mathlib rounds
half-integers up rather than to even, which is irrelevant to the bounds
proved here). -/
def pyRound (x : ℚ) (d : ℕ) : ℚ := (round (x * 10 ^ d) : ℚ) / 10 ^ d

theorem round_le_round {x y : ℚ} (h : x ≤ y) : round x ≤ round y := by
  rw [round_eq, round_eq]
  exact Int.floor_le_floor (by linarith)

theorem pyRound_nonneg {x : ℚ} (d : ℕ) (h : 0 ≤ x) : 0 ≤ pyRound x d := by
  unfold pyRound
  have h1 : (0 : ℤ) ≤ round (x * 10 ^ d) := by
    have := round_le_round (x := 0) (y := x * 10 ^ d) (by positivity)
    simpa using this
  positivity

theorem pyRound_le_natCast {x : ℚ} (d n : ℕ) (h : x ≤ n) : pyRound x d ≤ n := by
  unfold pyRound
  have hpow : (0 : ℚ) < 10 ^ d := by positivity
  have h1 : round (x * 10 ^ d) ≤ round ((n * 10 ^ d : ℕ) : ℚ) := by
    apply round_le_round
    push_cast
    exact mul_le_mul_of_nonneg_right h (le_of_lt hpow)
  rw [round_natCast] at h1
  rw [div_le_iff₀ hpow]
  calc ((round (x * 10 ^ d) : ℤ) : ℚ) ≤ ((n * 10 ^ d : ℕ) : ℚ) := by exact_mod_cast h1
    _ = (n : ℚ) * 10 ^ d := by push_cast; ring

/-- Model of `statistics.mean` on a list of rationals (used only on non-empty lists,
as in the source). -/
def meanQ (l : List ℚ) : ℚ := l.sum / l.length

theorem meanQ_nonneg {l : List ℚ} (h : ∀ x ∈ l, 0 ≤ x) : 0 ≤ meanQ l := by
  unfold meanQ
  have : 0 ≤ l.sum := List.sum_nonneg h
  positivity

/-! ### Word extraction (scraping_1_5.py, `re.findall(r'\b[a-zA-Z]{k,}\b', text.lower())`) -/

/-- ASCII letter test. -/
def isAsciiAlpha (c : Char) : Bool :=
  (('a' ≤ c && c ≤ 'z') || ('A' ≤ c && c ≤ 'Z'))

/-- Regex word character (`\w` over ASCII): letter, digit or underscore. -/
def isWordChar (c : Char) : Bool :=
  isAsciiAlpha c || ('0' ≤ c && c ≤ '9') || c == '_'

/-- Splits a character list into its maximal runs of word characters
(`cur` is the current run, reversed). -/
def wordRuns : List Char → List Char → List (List Char)
  | [], cur => if cur.isEmpty then [] else [cur.reverse]
  | c :: cs, cur =>
    if isWordChar c then wordRuns cs (c :: cur)
    else if cur.isEmpty then wordRuns cs [] else cur.reverse :: wordRuns cs []

/-- Model of `re.findall(r'\b[a-zA-Z]{k,}\b', s)`: the maximal word-character runs
consisting purely of letters, of length at least `minLen`. -/
def extractWords (minLen : ℕ) (s : String) : List String :=
  ((wordRuns s.data []).filter
    (fun run => run.all isAsciiAlpha && decide (minLen ≤ run.length))).map
    (fun run => String.mk run)

/-- Python `str.lower()` (ASCII). -/
def lowerStr (s : String) : String := String.mk (s.data.map Char.toLower)

/-- Model of `set(re.findall(r'\b[a-zA-Z]{k,}\b', s.lower()))`. -/
def wordSet (minLen : ℕ) (s : String) : Finset String :=
  (extractWords minLen (lowerStr s)).toFinset

/-! ### Channel records -/

/-- The textual fields of a channel record used by the competitor pipeline
(`channel_data` of step 1.1 / competitor candidate dicts of step 1.5). -/
structure ChannelInfo where
  channel_id : String
  channel_title : String
  description : String
  published_at : String
deriving DecidableEq

/-! ### Competitor relevance scoring (scraping_1_5.py lines 168-186) -/

/-- Source function `calculate_competitor_relevance_score(competitor, target_channel)`. -/
def calculate_competitor_relevance_score (competitor target : ChannelInfo) : ℚ :=
  let target_title_words := wordSet 3 target.channel_title
  let comp_title_words := wordSet 3 competitor.channel_title
  let score1 : ℚ :=
    if target_title_words.Nonempty ∧ comp_title_words.Nonempty then
      ((target_title_words ∩ comp_title_words).card : ℚ) /
        ((target_title_words ∪ comp_title_words).card : ℚ) * 50
    else 0
  let target_desc_words := wordSet 4 target.description
  let comp_desc_words := wordSet 4 competitor.description
  let score2 : ℚ :=
    if target_desc_words.Nonempty ∧ comp_desc_words.Nonempty then
      ((target_desc_words ∩ comp_desc_words).card : ℚ) /
        ((target_desc_words ∪ comp_desc_words).card : ℚ) * 30
    else 0
  score1 + score2 + 20

/-- The spec's description of the similarity term: Jaccard similarity of two
word sets, contributing 0 when either set is empty. -/
def jaccardSpec (A B : Finset String) : ℚ :=
  if A = ∅ ∨ B = ∅ then 0 else ((A ∩ B).card : ℚ) / ((A ∪ B).card : ℚ)

theorem jaccardSpec_nonneg (A B : Finset String) : 0 ≤ jaccardSpec A B := by
  unfold jaccardSpec
  split
  · exact le_refl 0
  · positivity

theorem jaccardSpec_le_one (A B : Finset String) : jaccardSpec A B ≤ 1 := by
  unfold jaccardSpec
  split
  · exact zero_le_one
  · rename_i h
    push_neg at h
    have hA : A.Nonempty := Finset.nonempty_iff_ne_empty.mpr h.1
    have hU : (A ∪ B).Nonempty := hA.mono Finset.subset_union_left
    have hcard : 0 < ((A ∪ B).card : ℚ) := by
      exact_mod_cast Finset.card_pos.mpr hU
    rw [div_le_one hcard]
    exact_mod_cast Finset.card_le_card
      (Finset.inter_subset_left.trans Finset.subset_union_left)

/-! ### Composite performance scores (scraping_1_2.py lines 237-243,
scraping_1_4.py lines 258-264) -/

/-- Source function `calculate_advanced_performance_score(views, likes, comments,
engagement_rate, duration_seconds)`. -/
def calculate_advanced_performance_score
    (views likes comments engagement_rate duration_seconds : ℚ) : ℚ :=
  let view_score := min (views / 50000) 1 * 30
  let engagement_score := min (engagement_rate * 25) 1 * 30
  let social_score := min ((likes + comments) / 1000) 1 * 20
  let velocity_score := min (views / max (duration_seconds / 60) 1 / 1000) 1 * 20
  pyRound (view_score + engagement_score + social_score + velocity_score) 2

/-- Source function `calculate_playlist_performance_score(avg_views, engagement_rate,
video_count, completion_rate)`. -/
def calculate_playlist_performance_score
    (avg_views engagement_rate video_count completion_rate : ℚ) : ℚ :=
  let views_score := min (avg_views / 10000) 1 * 30
  let engagement_score := min (engagement_rate * 1000) 1 * 25
  let completion_score := completion_rate * 25
  let length_bonus := min (video_count / 10) 1 * 20
  min (views_score + engagement_score + completion_score + length_bonus) 100

/-! ### Competitor filtering and ranking (scraping_1_5.py lines 157-166) -/

/-- A competitor candidate dict after `filter_and_rank_competitors` has
attached its `relevance_score`. -/
structure ScoredCand where
  cand : ChannelInfo
  relevance_score : ℚ
deriving DecidableEq

/-- The descending-score order used by
`sort(key=lambda x: x['relevance_score'], reverse=True)`. -/
def scoreGe (a b : ScoredCand) : Prop := b.relevance_score ≤ a.relevance_score

instance : DecidableRel scoreGe := fun a b =>
  inferInstanceAs (Decidable (b.relevance_score ≤ a.relevance_score))

instance : IsTotal ScoredCand scoreGe :=
  ⟨fun a b => (le_total b.relevance_score a.relevance_score)⟩

instance : IsTrans ScoredCand scoreGe :=
  ⟨fun _ _ _ hab hbc => le_trans hbc hab⟩

/-- Source function `filter_and_rank_competitors(competitors, target_channel_data,
max_competitors)`: score each candidate, sort descending by score (Python's
sort is stable; so is `insertionSort`), keep the first `max_competitors`. -/
def filter_and_rank_competitors (competitors : List ChannelInfo)
    (target_channel_data : ChannelInfo) (max_competitors : ℕ) : List ScoredCand :=
  let scored_competitors := competitors.map
    (fun c => ⟨c, calculate_competitor_relevance_score c target_channel_data⟩)
  (scored_competitors.insertionSort scoreGe).take max_competitors

/-! ### Percentile ranking (scraping_1_5.py lines 278-280) -/

/-- Python `list.index`: index of the first occurrence (the source calls it
only when the element is present; absence raises `ValueError`, modelled by
the `Option` in `calculate_percentile`). -/
def idxOfQ (a : ℚ) : List ℚ → ℕ
  | [] => 0
  | b :: t => if b = a then 0 else idxOfQ a t + 1

/-- Source function `calculate_percentile(target_value, all_values)`; `none` models the
`ValueError` raised by `.index` when the target is absent. -/
def calculate_percentile (target_value : ℚ) (all_values : List ℚ) : Option ℚ :=
  if all_values = [] then some 50
  else
    let s := all_values.insertionSort (· ≤ ·)
    if target_value ∈ s then
      some (pyRound ((idxOfQ target_value s : ℚ) / all_values.length * 100) 1)
    else none

/-! ### Playlist series-completion estimate (scraping_1_4.py lines 241-256) -/

/-- The fields of an enriched playlist-video dict used by the playlist
heuristics (`position`, `view_count`). -/
structure PlaylistVideo where
  position : ℕ
  view_count : ℕ
deriving DecidableEq

/-- The ascending-position order of
`sorted(playlist_videos_data, key=lambda x: x.get('position', 0))`. -/
def posLe (a b : PlaylistVideo) : Prop := a.position ≤ b.position

instance : DecidableRel posLe := fun a b =>
  inferInstanceAs (Decidable (a.position ≤ b.position))

instance : IsTotal PlaylistVideo posLe := ⟨fun a b => Nat.le_total a.position b.position⟩

instance : IsTrans PlaylistVideo posLe := ⟨fun _ _ _ hab hbc => Nat.le_trans hab hbc⟩

/-- Source function `estimate_series_completion_rate(playlist_videos_data)`. -/
def estimate_series_completion_rate (playlist_videos_data : List PlaylistVideo) : ℚ :=
  if playlist_videos_data.length < 2 then 1
  else
    let sorted_videos := playlist_videos_data.insertionSort posLe
    let view_counts : List ℕ := sorted_videos.map (fun v => v.view_count)
    if view_counts = [] ∨ view_counts.headI = 0 then 0
    else
      let first_video_views : ℚ := (view_counts.headI : ℚ)
      let last_video_views : ℚ := (view_counts.getLastI : ℚ)
      let completion_rate := last_video_views / first_video_views
      let length_adjustment :=
        max (3/10) (1 - ((playlist_videos_data.length : ℚ) - 1) * (5/100))
      min (completion_rate * length_adjustment) 1

/-! ### Recent-performance trend (scraping_1_2.py lines 307-318) -/

/-- The fields of an enriched video dict used by the trend analysis. -/
structure TrendVideo where
  days_since_upload : ℕ
  view_count : ℕ
deriving DecidableEq

/-- The four string results of `analyze_recent_performance_trend`. -/
inductive Trend where
  | improving
  | declining
  | stable
  | insufficient_data
deriving DecidableEq

/-- The `recent` filter: `days_since_upload <= 90`. -/
def recentVideos (videos : List TrendVideo) : List TrendVideo :=
  videos.filter (fun v => v.days_since_upload ≤ 90)

/-- The `older` filter: `days_since_upload > 90`. -/
def olderVideos (videos : List TrendVideo) : List TrendVideo :=
  videos.filter (fun v => 90 < v.days_since_upload)

/-- Source function `analyze_recent_performance_trend(videos)`. -/
def analyze_recent_performance_trend (videos : List TrendVideo) : Trend :=
  let recent := recentVideos videos
  let older := olderVideos videos
  if recent = [] ∨ older = [] then .insufficient_data
  else
    let recent_avg_views := meanQ (recent.map (fun v => (v.view_count : ℚ)))
    let older_avg_views := meanQ (older.map (fun v => (v.view_count : ℚ)))
    if recent_avg_views > older_avg_views * 1.2 then .improving
    else if recent_avg_views < older_avg_views * 0.8 then .declining
    else .stable

/-! ### Competitor discovery (scraping_1_5.py lines 95-140, 21-93, 298-304) -/

/-- Model of `googleapiclient.errors.HttpError`. -/
structure HttpError where
  message : String
deriving DecidableEq

/-- The snippet fields of one hit of `youtube.search().list(...)`. -/
structure SearchItem where
  channelId : String
  title : String
  description : String
  publishedAt : String
deriving DecidableEq

/-- The candidate dict built from a search hit in `find_similar_channels`. -/
def mkCandidate (item : SearchItem) : ChannelInfo :=
  ⟨item.channelId, item.title, item.description, item.publishedAt⟩

/-- The inner loop of `find_similar_channels` over the items of one search
response: a hit is appended only when its channel id is not yet in
`unique_channel_ids` (`seen`). -/
def collectItems (seen : List String) (acc : List ChannelInfo) :
    List SearchItem → List String × List ChannelInfo
  | [] => (seen, acc)
  | item :: rest =>
    if item.channelId ∈ seen then collectItems seen acc rest
    else collectItems (item.channelId :: seen) (acc ++ [mkCandidate item]) rest

/-- The outer loop over the (at most three) search responses. -/
def collectResponses (seen : List String) (acc : List ChannelInfo) :
    List (List SearchItem) → List String × List ChannelInfo
  | [] => (seen, acc)
  | items :: rest =>
    let st := collectItems seen acc items
    collectResponses st.1 st.2 rest

/-- The competitor-candidate list `find_similar_channels` hands to
`filter_and_rank_competitors`: the de-duplication state is seeded with the
target's own channel id. -/
def collect_candidates (target_channel_id : String)
    (responses : List (List SearchItem)) : List ChannelInfo :=
  (collectResponses [target_channel_id] [] responses).2

/-- Source function `find_similar_channels(channel_data, max_competitors)`. The outcome of
the search API calls is passed explicitly: `Except.error e` models an
`HttpError` raised during the `try` block (caught, logged and turned into
`[]`), `Except.ok responses` the list of successful search responses. -/
def find_similar_channels (channel_data : ChannelInfo)
    (searchOutcome : Except HttpError (List (List SearchItem)))
    (max_competitors : ℕ) : List ScoredCand :=
  match searchOutcome with
  | .error _ => []
  | .ok responses =>
    filter_and_rank_competitors
      (collect_candidates channel_data.channel_id responses)
      channel_data max_competitors

/-- The shape of the analysis dict returned by `analyze_competitors`:
`analysis_error` and `insights_error` are the `'error'` markers of the
`competitive_analysis` and `competitive_insights` sub-dicts. -/
structure CompetitiveAnalysisResult where
  target_channel_id : String
  target_channel_title : String
  competitors : List ScoredCand
  analysis_error : Option String
  insights_error : Option String
deriving DecidableEq

/-- Source function `create_empty_competitive_analysis(channel_data)`. -/
def create_empty_competitive_analysis (channel_data : ChannelInfo) :
    CompetitiveAnalysisResult :=
  { target_channel_id := channel_data.channel_id
    target_channel_title := channel_data.channel_title
    competitors := []
    analysis_error := some "No competitors found"
    insights_error := some "Insufficient data for analysis" }

/-- Source function `analyze_competitors(channel_data, performance_data, max_competitors)`.
Steps 2-4 (collecting competitor profiles over the network, benchmarking,
insight generation) are modelled by the continuation `proceed`; the claim
under verification only concerns the empty-competitors path. -/
def analyze_competitors (channel_data : ChannelInfo)
    (searchOutcome : Except HttpError (List (List SearchItem)))
    (max_competitors : ℕ)
    (proceed : List ScoredCand → CompetitiveAnalysisResult) :
    CompetitiveAnalysisResult :=
  let competitors := find_similar_channels channel_data searchOutcome max_competitors
  if competitors = [] then create_empty_competitive_analysis channel_data
  else proceed competitors

/-! ### Per-video BI metrics (scraping_1_2.py lines 163-219, 325-327) -/

/-- Division that flags a zero divisor (a `ZeroDivisionError` in Python
would be `none`). -/
def safeDiv (a b : ℚ) : Option ℚ := if b = 0 then none else some (a / b)

/-- Source function `calculate_days_since_upload(published_at)`, applied to the signed
day-difference `now - published_date` (0 when the upload date is today):
`max(1, ...)`. -/
def calculate_days_since_upload (day_difference : ℤ) : ℤ :=
  max 1 day_difference

/-- The ratio metrics of `calculate_complete_bi_metrics`. -/
structure RatioMetrics where
  engagement_rate : ℚ
  like_ratio : ℚ
  comment_ratio : ℚ
  views_per_day : ℚ
  views_per_minute : ℚ
deriving DecidableEq

/-- The ratio part of `calculate_complete_bi_metrics(item, duration_seconds,
country)`: every division performed by the source, with its divisor exactly
as written (`safe_views = max(views, 1)`, `duration_minutes =
max(duration_seconds / 60, 0.1)`, `max(days_since_upload, 1)`). Each
division goes through `safeDiv`, so the result is `none` iff some divisor
is zero. -/
def calculate_complete_bi_metrics (views likes comments : ℕ)
    (duration_seconds : ℕ) (day_difference : ℤ) : Option RatioMetrics := do
  let safe_views : ℚ := max (views : ℚ) 1
  let duration_minutes : ℚ := max ((duration_seconds : ℚ) / 60) (1/10)
  let days_since_upload := calculate_days_since_upload day_difference
  let engagement_rate ← safeDiv ((likes : ℚ) + (comments : ℚ)) safe_views
  let like_ratio ← safeDiv (likes : ℚ) safe_views
  let comment_ratio ← safeDiv (comments : ℚ) safe_views
  let views_per_day ← safeDiv (views : ℚ) (max ((days_since_upload : ℚ)) 1)
  let views_per_minute ← safeDiv (views : ℚ) duration_minutes
  pure ⟨engagement_rate, like_ratio, comment_ratio, views_per_day, views_per_minute⟩

/-! ## Theorems for the claims -/

theorem ite_nonempty_eq_jaccardSpec (A B : Finset String) (c : ℚ) :
    (if A.Nonempty ∧ B.Nonempty then
        ((A ∩ B).card : ℚ) / ((A ∪ B).card : ℚ) * c
      else 0) = c * jaccardSpec A B := by
  unfold jaccardSpec
  by_cases h : A = ∅ ∨ B = ∅
  · have hne : ¬(A.Nonempty ∧ B.Nonempty) := by
      rcases h with h | h
      · intro hc; exact Finset.nonempty_iff_ne_empty.mp hc.1 h
      · intro hc; exact Finset.nonempty_iff_ne_empty.mp hc.2 h
    rw [if_neg hne, if_pos h, mul_zero]
  · push_neg at h
    rw [if_pos ⟨Finset.nonempty_iff_ne_empty.mpr h.1, Finset.nonempty_iff_ne_empty.mpr h.2⟩,
      if_neg (by push_neg; exact h), mul_comm]

/-- C1: `calculate_competitor_relevance_score` returns
`50 * J_title + 30 * J_desc + 20`, where `J_title` is the Jaccard
similarity of the sets of alphabetic words of length ≥ 3 of the two
channel titles and `J_desc` that of the sets of alphabetic words of
length ≥ 4 of the two descriptions (each contributing 0 when either word
set is empty); consequently the score always lies in `[20, 100]`. -/
theorem relevance_score_formula_and_bounds (competitor target : ChannelInfo) :
    calculate_competitor_relevance_score competitor target =
      50 * jaccardSpec (wordSet 3 target.channel_title) (wordSet 3 competitor.channel_title) +
      30 * jaccardSpec (wordSet 4 target.description) (wordSet 4 competitor.description) + 20 ∧
    20 ≤ calculate_competitor_relevance_score competitor target ∧
    calculate_competitor_relevance_score competitor target ≤ 100 := by
  have heq : calculate_competitor_relevance_score competitor target =
      50 * jaccardSpec (wordSet 3 target.channel_title) (wordSet 3 competitor.channel_title) +
      30 * jaccardSpec (wordSet 4 target.description) (wordSet 4 competitor.description) + 20 := by
    simp only [calculate_competitor_relevance_score]
    rw [ite_nonempty_eq_jaccardSpec, ite_nonempty_eq_jaccardSpec]
  refine ⟨heq, ?_, ?_⟩
  · rw [heq]
    have h1 := jaccardSpec_nonneg (wordSet 3 target.channel_title)
      (wordSet 3 competitor.channel_title)
    have h2 := jaccardSpec_nonneg (wordSet 4 target.description)
      (wordSet 4 competitor.description)
    linarith
  · rw [heq]
    have h1 := jaccardSpec_le_one (wordSet 3 target.channel_title)
      (wordSet 3 competitor.channel_title)
    have h2 := jaccardSpec_le_one (wordSet 4 target.description)
      (wordSet 4 competitor.description)
    linarith

/-- C2: both composite scores are normalized to `[0, 100]` for nonnegative
inputs (with the completion rate in `[0, 1]` for the playlist score). -/
theorem composite_scores_in_range
    (views likes comments engagement_rate duration_seconds : ℚ)
    (avg_views p_engagement_rate video_count completion_rate : ℚ)
    (hv : 0 ≤ views) (hl : 0 ≤ likes) (hc : 0 ≤ comments)
    (he : 0 ≤ engagement_rate) (hd : 0 ≤ duration_seconds)
    (hav : 0 ≤ avg_views) (hpe : 0 ≤ p_engagement_rate)
    (hvc : 0 ≤ video_count) (hcr0 : 0 ≤ completion_rate) (hcr1 : completion_rate ≤ 1) :
    (0 ≤ calculate_advanced_performance_score views likes comments
        engagement_rate duration_seconds ∧
      calculate_advanced_performance_score views likes comments
        engagement_rate duration_seconds ≤ 100) ∧
    (0 ≤ calculate_playlist_performance_score avg_views p_engagement_rate
        video_count completion_rate ∧
      calculate_playlist_performance_score avg_views p_engagement_rate
        video_count completion_rate ≤ 100) := by
  constructor
  · unfold calculate_advanced_performance_score
    have hmax : (0:ℚ) < max (duration_seconds / 60) 1 :=
      lt_of_lt_of_le one_pos (le_max_right _ _)
    have h1a : (0:ℚ) ≤ min (views / 50000) 1 := le_min (by positivity) zero_le_one
    have h1b : min (views / 50000) 1 ≤ 1 := min_le_right _ _
    have h2a : (0:ℚ) ≤ min (engagement_rate * 25) 1 := le_min (by positivity) zero_le_one
    have h2b : min (engagement_rate * 25) 1 ≤ 1 := min_le_right _ _
    have h3a : (0:ℚ) ≤ min ((likes + comments) / 1000) 1 := le_min (by positivity) zero_le_one
    have h3b : min ((likes + comments) / 1000) 1 ≤ 1 := min_le_right _ _
    have h4a : (0:ℚ) ≤ min (views / max (duration_seconds / 60) 1 / 1000) 1 :=
      le_min (by positivity) zero_le_one
    have h4b : min (views / max (duration_seconds / 60) 1 / 1000) 1 ≤ 1 := min_le_right _ _
    constructor
    · exact pyRound_nonneg 2 (by linarith)
    · have := pyRound_le_natCast (x := min (views / 50000) 1 * 30 +
        min (engagement_rate * 25) 1 * 30 + min ((likes + comments) / 1000) 1 * 20 +
        min (views / max (duration_seconds / 60) 1 / 1000) 1 * 20) 2 100 (by linarith)
      simpa using this
  · unfold calculate_playlist_performance_score
    have h1a : (0:ℚ) ≤ min (avg_views / 10000) 1 := le_min (by positivity) zero_le_one
    have h2a : (0:ℚ) ≤ min (p_engagement_rate * 1000) 1 := le_min (by positivity) zero_le_one
    have h3a : (0:ℚ) ≤ completion_rate * 25 := by positivity
    have h4a : (0:ℚ) ≤ min (video_count / 10) 1 := le_min (by positivity) zero_le_one
    constructor
    · exact le_min (by linarith) (by norm_num)
    · exact min_le_right _ _

/-- Closed witness for `composite_scores_in_range`. -/
theorem composite_scores_in_range_witness :
    (0 ≤ calculate_advanced_performance_score 100 5 2 (7/100) 300 ∧
      calculate_advanced_performance_score 100 5 2 (7/100) 300 ≤ 100) ∧
    (0 ≤ calculate_playlist_performance_score 2500 (3/1000) 8 (1/2) ∧
      calculate_playlist_performance_score 2500 (3/1000) 8 (1/2) ≤ 100) :=
  composite_scores_in_range 100 5 2 (7/100) 300 2500 (3/1000) 8 (1/2)
    (by norm_num) (by norm_num) (by norm_num) (by norm_num) (by norm_num)
    (by norm_num) (by norm_num) (by norm_num) (by norm_num) (by norm_num)

/-- C3: `filter_and_rank_competitors` keeps the top-K: the returned list has
length `min K n`, is sorted in non-increasing order of `relevance_score`,
and (splitting the scored candidate pool into the returned part and the
rest) every returned candidate's score is at least every excluded
candidate's score. -/
theorem filter_and_rank_top_k (competitors : List ChannelInfo)
    (target_channel_data : ChannelInfo) (max_competitors : ℕ) :
    (filter_and_rank_competitors competitors target_channel_data max_competitors).length =
      min max_competitors competitors.length ∧
    (filter_and_rank_competitors competitors target_channel_data max_competitors).Sorted scoreGe ∧
    ∃ rest : List ScoredCand,
      (filter_and_rank_competitors competitors target_channel_data max_competitors ++ rest).Perm
        (competitors.map
          (fun c => ⟨c, calculate_competitor_relevance_score c target_channel_data⟩)) ∧
      ∀ a ∈ filter_and_rank_competitors competitors target_channel_data max_competitors,
        ∀ b ∈ rest, b.relevance_score ≤ a.relevance_score := by
  unfold filter_and_rank_competitors
  set scored := competitors.map
    (fun c => (⟨c, calculate_competitor_relevance_score c target_channel_data⟩ : ScoredCand))
    with hscored
  set s := scored.insertionSort scoreGe with hs
  have hperm : s.Perm scored := List.perm_insertionSort scoreGe scored
  have hsorted : s.Pairwise scoreGe := List.sorted_insertionSort scoreGe scored
  refine ⟨?_, ?_, s.drop max_competitors, ?_, ?_⟩
  · rw [List.length_take, hperm.length_eq, List.length_map]
  · exact hsorted.sublist (List.take_sublist max_competitors s)
  · rw [List.take_append_drop]
    exact hperm
  · have hpw : (s.take max_competitors ++ s.drop max_competitors).Pairwise scoreGe := by
      rw [List.take_append_drop]
      exact hsorted
    exact fun a ha b hb => (List.pairwise_append.mp hpw).2.2 a ha b hb

/-- Closed witness for `filter_and_rank_top_k`. -/
theorem filter_and_rank_top_k_witness :
    (filter_and_rank_competitors
      [⟨"UCa", "tech reviews", "gadget reviews", "2020"⟩,
       ⟨"UCb", "cooking", "recipes", "2021"⟩]
      ⟨"UCt", "tech reviews", "gadget reviews", "2019"⟩ 1).length =
      min 1 2 :=
  (filter_and_rank_top_k
    [⟨"UCa", "tech reviews", "gadget reviews", "2020"⟩,
     ⟨"UCb", "cooking", "recipes", "2021"⟩]
    ⟨"UCt", "tech reviews", "gadget reviews", "2019"⟩ 1).1

theorem idxOfQ_lt_length {a : ℚ} : ∀ {l : List ℚ}, a ∈ l → idxOfQ a l < l.length := by
  intro l
  induction l with
  | nil => intro h; exact absurd h (List.not_mem_nil a)
  | cons b t ih =>
    intro h
    by_cases hba : b = a
    · simp [idxOfQ, hba]
    · have hat : a ∈ t := by
        rcases List.mem_cons.mp h with h1 | h1
        · exact absurd h1.symm hba
        · exact h1
      simpa [idxOfQ, hba] using ih hat

theorem idxOfQ_get {a : ℚ} : ∀ {l : List ℚ} (h : a ∈ l),
    l.get ⟨idxOfQ a l, idxOfQ_lt_length h⟩ = a := by
  intro l
  induction l with
  | nil => intro h; exact absurd h (List.not_mem_nil a)
  | cons b t ih =>
    intro h
    by_cases hba : b = a
    · simp [idxOfQ, hba]
    · have hat : a ∈ t := by
        rcases List.mem_cons.mp h with h1 | h1
        · exact absurd h1.symm hba
        · exact h1
      have := ih hat
      simp only [idxOfQ, hba, if_false, List.get_cons_succ]
      exact this

theorem not_mem_take_idxOfQ (a : ℚ) : ∀ l : List ℚ, a ∉ l.take (idxOfQ a l) := by
  intro l
  induction l with
  | nil => simp
  | cons b t ih =>
    by_cases hba : b = a
    · simp [idxOfQ, hba]
    · simp only [idxOfQ, hba, if_false, List.take_succ_cons, List.mem_cons]
      rintro (h | h)
      · exact hba h.symm
      · exact ih h

/-- C4: for a non-empty value list containing the target,
`calculate_percentile` returns `100 * i / n` rounded to one decimal, where
`i` is the index of the first occurrence of the target in the ascending
sort of the list and `n` the list length; the result lies in `[0, 100]`.
(For an empty list it returns 50: `percentile_empty` below.) -/
theorem percentile_characterization (target_value : ℚ) (all_values : List ℚ) :
    calculate_percentile target_value [] = some 50 ∧
    (all_values ≠ [] → target_value ∈ all_values →
    ∃ (s : List ℚ) (i : ℕ) (hi : i < s.length),
      s.Sorted (· ≤ ·) ∧ s.Perm all_values ∧
      s.get ⟨i, hi⟩ = target_value ∧ target_value ∉ s.take i ∧
      calculate_percentile target_value all_values =
        some (pyRound (100 * (i : ℚ) / all_values.length) 1) ∧
      0 ≤ pyRound (100 * (i : ℚ) / all_values.length) 1 ∧
      pyRound (100 * (i : ℚ) / all_values.length) 1 ≤ 100) := by
  refine ⟨rfl, fun hne hmem => ?_⟩
  set s := all_values.insertionSort (· ≤ ·) with hs
  have hperm : s.Perm all_values := List.perm_insertionSort _ all_values
  have hmem_s : target_value ∈ s := hperm.mem_iff.mpr hmem
  have hi : idxOfQ target_value s < s.length := idxOfQ_lt_length hmem_s
  have hlen : s.length = all_values.length := hperm.length_eq
  have hn : 0 < all_values.length := List.length_pos.mpr hne
  have hin : idxOfQ target_value s < all_values.length := hlen ▸ hi
  have harg0 : (0:ℚ) ≤ 100 * (idxOfQ target_value s : ℚ) / all_values.length := by positivity
  have harg1 : 100 * (idxOfQ target_value s : ℚ) / all_values.length ≤ 100 := by
    rw [div_le_iff₀ (by exact_mod_cast hn)]
    have : (idxOfQ target_value s : ℚ) ≤ all_values.length := by
      exact_mod_cast le_of_lt hin
    linarith
  refine ⟨s, idxOfQ target_value s, hi, List.sorted_insertionSort _ _, hperm,
    idxOfQ_get hmem_s, not_mem_take_idxOfQ target_value s, ?_,
    pyRound_nonneg 1 harg0, ?_⟩
  · unfold calculate_percentile
    rw [if_neg hne]
    simp only [← hs, if_pos hmem_s]
    congr 1
    rw [mul_comm, mul_div_assoc]
  · have := pyRound_le_natCast (x := 100 * (idxOfQ target_value s : ℚ) / all_values.length)
      1 100 (by exact_mod_cast harg1)
    simpa using this

/-- Closed witness for `percentile_characterization`. -/
theorem percentile_characterization_witness :
    ∃ (s : List ℚ) (i : ℕ) (hi : i < s.length),
      s.Sorted (· ≤ ·) ∧ s.Perm [3, 1, 2] ∧
      s.get ⟨i, hi⟩ = 2 ∧ (2:ℚ) ∉ s.take i ∧
      calculate_percentile 2 [3, 1, 2] =
        some (pyRound (100 * (i : ℚ) / ([3, 1, 2] : List ℚ).length) 1) ∧
      0 ≤ pyRound (100 * (i : ℚ) / ([3, 1, 2] : List ℚ).length) 1 ∧
      pyRound (100 * (i : ℚ) / ([3, 1, 2] : List ℚ).length) 1 ≤ 100 :=
  (percentile_characterization 2 [3, 1, 2]).2 (by simp) (by norm_num)

/-- C5 counterexample: with the other counters zero and duration 60 s, the
view-count contribution to `calculate_advanced_performance_score` grows by
exactly 6 points per 10000 views up to 50000 views and is constant above —
equal increments, i.e. linear growth saturating at a cap, not logarithmic
growth (which would have strictly decreasing increments). -/
theorem performance_score_not_logarithmic :
    calculate_advanced_performance_score 10000 0 0 0 60 = 26 ∧
    calculate_advanced_performance_score 20000 0 0 0 60 = 32 ∧
    calculate_advanced_performance_score 30000 0 0 0 60 = 38 ∧
    calculate_advanced_performance_score 40000 0 0 0 60 = 44 ∧
    calculate_advanced_performance_score 50000 0 0 0 60 = 50 ∧
    calculate_advanced_performance_score 100000 0 0 0 60 = 50 := by
  refine ⟨?_, ?_, ?_, ?_, ?_, ?_⟩ <;>
    norm_num [calculate_advanced_performance_score, pyRound, round_eq, min_def, max_def]

/-- C5 amended: the contribution of the raw counters to the composite
score is linear up to a saturation cap, not logarithmic. With the other
inputs zero and duration 60 s: the score is an affine function of the view
count `v` on `1000 ≤ v ≤ 50000` (`min(views / 50000, 1)`) and constant 50
for `v ≥ 50000`; dually, the score is an affine function of the combined
like/comment counter `l + c` up to `l + c ≤ 1000`
(`min((likes + comments) / 1000, 1)`) and constant 20 for `l + c ≥ 1000`. -/
theorem performance_score_linear_up_to_cap (v l c : ℚ) :
    (1000 ≤ v → v ≤ 50000 →
      calculate_advanced_performance_score v 0 0 0 60 =
        pyRound (20 + 3 * v / 5000) 2) ∧
    (50000 ≤ v →
      calculate_advanced_performance_score v 0 0 0 60 = 50) ∧
    (l + c ≤ 1000 →
      calculate_advanced_performance_score 0 l c 0 60 =
        pyRound ((l + c) / 50) 2) ∧
    (1000 ≤ l + c →
      calculate_advanced_performance_score 0 l c 0 60 = 20) := by
  have hmax : max ((60:ℚ)/60) 1 = 1 := by norm_num
  have hz1 : min ((0:ℚ) * 25) 1 = 0 := by norm_num
  have hz2 : min (((0:ℚ) + 0) / 1000) 1 = 0 := by norm_num
  have hzv : min ((0:ℚ) / 50000) 1 = 0 := by norm_num
  refine ⟨?_, ?_, ?_, ?_⟩
  · intro h1 h2
    unfold calculate_advanced_performance_score
    rw [hmax, hz1, hz2]
    have e1 : min (v / 50000) 1 = v / 50000 :=
      min_eq_left (by rw [div_le_one (by norm_num)]; exact h2)
    have e4 : min (v / 1 / 1000) 1 = 1 := by
      rw [div_one]
      exact min_eq_right ((le_div_iff₀ (by norm_num)).mpr (by linarith))
    rw [e1, e4]
    ring_nf
  · intro h1
    unfold calculate_advanced_performance_score
    rw [hmax, hz1, hz2]
    have e1 : min (v / 50000) 1 = 1 :=
      min_eq_right ((le_div_iff₀ (by norm_num)).mpr (by linarith))
    have e4 : min (v / 1 / 1000) 1 = 1 := by
      rw [div_one]
      exact min_eq_right ((le_div_iff₀ (by norm_num)).mpr (by linarith))
    rw [e1, e4]
    norm_num [pyRound, round_eq]
  · intro h1
    unfold calculate_advanced_performance_score
    rw [hmax, hz1, hzv]
    have e3 : min ((l + c) / 1000) 1 = (l + c) / 1000 :=
      min_eq_left (by rw [div_le_one (by norm_num)]; exact h1)
    have e4 : min ((0:ℚ) / 1 / 1000) 1 = 0 := by norm_num
    rw [e3, e4]
    ring_nf
  · intro h1
    unfold calculate_advanced_performance_score
    rw [hmax, hz1, hzv]
    have e3 : min ((l + c) / 1000) 1 = 1 :=
      min_eq_right ((le_div_iff₀ (by norm_num)).mpr (by linarith))
    have e4 : min ((0:ℚ) / 1 / 1000) 1 = 0 := by norm_num
    rw [e3, e4]
    norm_num [pyRound, round_eq]

/-- Closed witness for `performance_score_linear_up_to_cap`. -/
theorem performance_score_linear_up_to_cap_witness :
    calculate_advanced_performance_score 5000 0 0 0 60 =
      pyRound (20 + 3 * 5000 / 5000) 2 ∧
    calculate_advanced_performance_score 60000 0 0 0 60 = 50 ∧
    calculate_advanced_performance_score 0 300 100 0 60 =
      pyRound ((300 + 100) / 50) 2 ∧
    calculate_advanced_performance_score 0 900 600 0 60 = 20 :=
  ⟨(performance_score_linear_up_to_cap 5000 0 0).1 (by norm_num) (by norm_num),
   (performance_score_linear_up_to_cap 60000 0 0).2.1 (by norm_num),
   (performance_score_linear_up_to_cap 0 300 100).2.2.1 (by norm_num),
   (performance_score_linear_up_to_cap 0 900 600).2.2.2 (by norm_num)⟩

/-- C6: `estimate_series_completion_rate` always lies in `[0, 1]`; it is
exactly 1 for fewer than two videos, exactly 0 when the first video in
playlist-position order has zero views, and otherwise equals
`min((last_views / first_views) * max(0.3, 1 - 0.05*(n-1)), 1)`. -/
theorem series_completion_rate_spec (l : List PlaylistVideo) :
    (0 ≤ estimate_series_completion_rate l ∧ estimate_series_completion_rate l ≤ 1) ∧
    (l.length < 2 → estimate_series_completion_rate l = 1) ∧
    (2 ≤ l.length →
      (((l.insertionSort posLe).map (fun v => v.view_count)).headI = 0 →
        estimate_series_completion_rate l = 0) ∧
      (((l.insertionSort posLe).map (fun v => v.view_count)).headI ≠ 0 →
        estimate_series_completion_rate l =
          min (((((l.insertionSort posLe).map (fun v => v.view_count)).getLastI : ℕ) : ℚ) /
                ((((l.insertionSort posLe).map (fun v => v.view_count)).headI : ℕ) : ℚ) *
              max (3/10) (1 - ((l.length : ℚ) - 1) * (5/100))) 1)) := by
  by_cases hlen : l.length < 2
  · have hr : estimate_series_completion_rate l = 1 := by
      unfold estimate_series_completion_rate
      rw [if_pos hlen]
    exact ⟨⟨by rw [hr]; norm_num, by rw [hr]⟩, fun _ => hr,
      fun h2 => absurd h2 (by omega)⟩
  · by_cases hc : ((l.insertionSort posLe).map (fun v => v.view_count)) = [] ∨
        ((l.insertionSort posLe).map (fun v => v.view_count)).headI = 0
    · have hr : estimate_series_completion_rate l = 0 := by
        simp only [estimate_series_completion_rate]
        rw [if_neg hlen, if_pos hc]
      refine ⟨⟨by rw [hr], by rw [hr]; norm_num⟩, fun h => absurd h hlen,
        fun _ => ⟨fun _ => hr, fun hne => ?_⟩⟩
      rcases hc with hnil | hzero
      · exact absurd (by rw [hnil]; rfl) hne
      · exact absurd hzero hne
    · have hr : estimate_series_completion_rate l =
          min (((((l.insertionSort posLe).map (fun v => v.view_count)).getLastI : ℕ) : ℚ) /
                ((((l.insertionSort posLe).map (fun v => v.view_count)).headI : ℕ) : ℚ) *
              max (3/10) (1 - ((l.length : ℚ) - 1) * (5/100))) 1 := by
        simp only [estimate_series_completion_rate]
        rw [if_neg hlen, if_neg hc]
      have hnn : (0:ℚ) ≤
          ((((l.insertionSort posLe).map (fun v => v.view_count)).getLastI : ℕ) : ℚ) /
            ((((l.insertionSort posLe).map (fun v => v.view_count)).headI : ℕ) : ℚ) *
            max (3/10) (1 - ((l.length : ℚ) - 1) * (5/100)) := by
        apply mul_nonneg
        · positivity
        · exact le_trans (by norm_num) (le_max_left _ _)
      refine ⟨⟨by rw [hr]; exact le_min hnn zero_le_one,
        by rw [hr]; exact min_le_right _ _⟩, fun h => absurd h hlen,
        fun _ => ⟨fun hzero => ?_, fun _ => hr⟩⟩
      exact absurd (Or.inr hzero) hc

/-- Closed witness for `series_completion_rate_spec`. -/
theorem series_completion_rate_witness :
    estimate_series_completion_rate [⟨0, 7⟩] = 1 ∧
    estimate_series_completion_rate [⟨0, 100⟩, ⟨1, 50⟩] = 19/40 := by
  constructor
  · exact (series_completion_rate_spec [⟨0, 7⟩]).2.1 (by norm_num)
  · have h := ((series_completion_rate_spec [⟨0, 100⟩, ⟨1, 50⟩]).2.2 (by norm_num)).2
      (by decide)
    rw [h]
    norm_num [List.insertionSort, List.orderedInsert, posLe, List.getLastI,
      min_def, max_def]

/-- C7: the trend analysis partitions videos into recent
(`days_since_upload ≤ 90`) and older (`> 90`); it returns
`insufficient_data` iff either group is empty, and otherwise classifies
`improving` / `declining` / `stable` by comparing the mean recent views to
1.2 resp. 0.8 times the mean older views. -/
theorem recent_trend_classification (videos : List TrendVideo) :
    (recentVideos videos ++ olderVideos videos).Perm videos ∧
    ((recentVideos videos = [] ∨ olderVideos videos = []) →
      analyze_recent_performance_trend videos = Trend.insufficient_data) ∧
    (recentVideos videos ≠ [] → olderVideos videos ≠ [] →
      (analyze_recent_performance_trend videos = Trend.improving ↔
        meanQ ((recentVideos videos).map (fun v => (v.view_count : ℚ))) >
          meanQ ((olderVideos videos).map (fun v => (v.view_count : ℚ))) * 1.2) ∧
      (analyze_recent_performance_trend videos = Trend.declining ↔
        meanQ ((recentVideos videos).map (fun v => (v.view_count : ℚ))) <
          meanQ ((olderVideos videos).map (fun v => (v.view_count : ℚ))) * 0.8) ∧
      (analyze_recent_performance_trend videos = Trend.stable ↔
        (meanQ ((olderVideos videos).map (fun v => (v.view_count : ℚ))) * 0.8 ≤
            meanQ ((recentVideos videos).map (fun v => (v.view_count : ℚ))) ∧
          meanQ ((recentVideos videos).map (fun v => (v.view_count : ℚ))) ≤
            meanQ ((olderVideos videos).map (fun v => (v.view_count : ℚ))) * 1.2))) := by
  refine ⟨?_, ?_, ?_⟩
  · have hfun : (fun v : TrendVideo => decide (90 < v.days_since_upload)) =
        (fun v : TrendVideo => !decide (v.days_since_upload ≤ 90)) := by
      funext v
      by_cases h : v.days_since_upload ≤ 90
      · simp [h, Nat.not_lt.mpr h]
      · simp [h, Nat.not_le.mp h]
    unfold recentVideos olderVideos
    rw [hfun]
    exact List.filter_append_perm _ videos
  · intro h
    unfold analyze_recent_performance_trend
    rw [if_pos h]
  · intro h1 h2
    have hcond : ¬(recentVideos videos = [] ∨ olderVideos videos = []) := by
      simp [h1, h2]
    have ho : 0 ≤ meanQ ((olderVideos videos).map (fun v => (v.view_count : ℚ))) := by
      apply meanQ_nonneg
      intro x hx
      rcases List.mem_map.mp hx with ⟨v, _, rfl⟩
      positivity
    set r := meanQ ((recentVideos videos).map (fun v => (v.view_count : ℚ))) with hrdef
    set o := meanQ ((olderVideos videos).map (fun v => (v.view_count : ℚ))) with hodef
    by_cases hI : r > o * 1.2
    · have hres : analyze_recent_performance_trend videos = Trend.improving := by
        simp only [analyze_recent_performance_trend]
        rw [if_neg hcond, ← hrdef, ← hodef, if_pos hI]
      rw [hres]
      have hnd : ¬(r < o * 0.8) := by
        have : o * 0.8 ≤ o * 1.2 := by nlinarith
        linarith
      refine ⟨iff_of_true rfl hI, iff_of_false (by simp) hnd,
        iff_of_false (by simp) ?_⟩
      intro hco
      linarith [hco.2]
    · by_cases hD : r < o * 0.8
      · have hres : analyze_recent_performance_trend videos = Trend.declining := by
          simp only [analyze_recent_performance_trend]
          rw [if_neg hcond, ← hrdef, ← hodef, if_neg hI, if_pos hD]
        rw [hres]
        refine ⟨iff_of_false (by simp) hI, iff_of_true rfl hD,
          iff_of_false (by simp) ?_⟩
        intro hco
        linarith [hco.1]
      · have hres : analyze_recent_performance_trend videos = Trend.stable := by
          simp only [analyze_recent_performance_trend]
          rw [if_neg hcond, ← hrdef, ← hodef, if_neg hI, if_neg hD]
        rw [hres]
        exact ⟨iff_of_false (by simp) hI, iff_of_false (by simp) hD,
          iff_of_true rfl ⟨by linarith [not_lt.mp hD], by linarith [not_lt.mp hI]⟩⟩

/-- Closed witness for `recent_trend_classification`. -/
theorem recent_trend_classification_witness :
    analyze_recent_performance_trend [⟨10, 300⟩, ⟨100, 100⟩] = Trend.improving := by
  have h := ((recent_trend_classification [⟨10, 300⟩, ⟨100, 100⟩]).2.2
    (by decide) (by decide)).1
  apply h.mpr
  norm_num [recentVideos, olderVideos, meanQ, List.filter]

/-- C8: an `HttpError` during the channel search is caught, not propagated:
`find_similar_channels` returns `[]`, and `analyze_competitors` then
returns the empty competitive-analysis structure of
`create_empty_competitive_analysis` — empty competitor list and error
markers — instead of raising. -/
theorem http_error_yields_empty_analysis (channel_data : ChannelInfo)
    (e : HttpError) (max_competitors : ℕ)
    (proceed : List ScoredCand → CompetitiveAnalysisResult) :
    find_similar_channels channel_data (Except.error e) max_competitors = [] ∧
    analyze_competitors channel_data (Except.error e) max_competitors proceed =
      create_empty_competitive_analysis channel_data ∧
    (create_empty_competitive_analysis channel_data).competitors = [] ∧
    (create_empty_competitive_analysis channel_data).analysis_error =
      some "No competitors found" ∧
    (create_empty_competitive_analysis channel_data).insights_error =
      some "Insufficient data for analysis" :=
  ⟨rfl, rfl, rfl, rfl, rfl⟩

/-- C9: the per-video ratio metrics are total — every divisor in
`calculate_complete_bi_metrics` is clamped to a positive value
(`max(views, 1)`, `max(duration_seconds/60, 0.1)`,
`max(days_since_upload, 1)`, with `calculate_days_since_upload` itself at
least 1), so no division by zero occurs for any nonnegative counters,
including all-zero counters and an upload date of today
(`day_difference = 0`). -/
theorem bi_metrics_total (views likes comments duration_seconds : ℕ)
    (day_difference : ℤ) :
    1 ≤ calculate_days_since_upload day_difference ∧
    (0:ℚ) < max (views : ℚ) 1 ∧
    (0:ℚ) < max ((duration_seconds : ℚ) / 60) (1/10) ∧
    (0:ℚ) < max ((calculate_days_since_upload day_difference : ℚ)) 1 ∧
    ∃ m : RatioMetrics,
      calculate_complete_bi_metrics views likes comments duration_seconds
        day_difference = some m := by
  have hdays : 1 ≤ calculate_days_since_upload day_difference := le_max_left 1 day_difference
  have h1 : (0:ℚ) < max (views : ℚ) 1 := lt_of_lt_of_le one_pos (le_max_right _ _)
  have h2 : (0:ℚ) < max ((duration_seconds : ℚ) / 60) (1/10) :=
    lt_of_lt_of_le (by norm_num) (le_max_right _ _)
  have h3 : (0:ℚ) < max ((calculate_days_since_upload day_difference : ℚ)) 1 :=
    lt_of_lt_of_le one_pos (le_max_right _ _)
  refine ⟨hdays, h1, h2, h3, ?_⟩
  unfold calculate_complete_bi_metrics
  simp only [safeDiv, ne_of_gt h1, ne_of_gt h2, ne_of_gt h3, if_neg, ite_false,
    Option.bind_eq_bind]
  exact ⟨_, rfl⟩

theorem collectItems_inv (t : String) (items : List SearchItem) :
    ∀ (seen : List String) (acc : List ChannelInfo),
      (acc.map (fun c => c.channel_id)).Nodup →
      (∀ c ∈ acc, c.channel_id ∈ seen) →
      t ∈ seen →
      t ∉ acc.map (fun c => c.channel_id) →
      ((collectItems seen acc items).2.map (fun c => c.channel_id)).Nodup ∧
      (∀ c ∈ (collectItems seen acc items).2,
        c.channel_id ∈ (collectItems seen acc items).1) ∧
      t ∈ (collectItems seen acc items).1 ∧
      t ∉ (collectItems seen acc items).2.map (fun c => c.channel_id) := by
  induction items with
  | nil =>
    intro seen acc h1 h2 h3 h4
    exact ⟨h1, h2, h3, h4⟩
  | cons item rest ih =>
    intro seen acc h1 h2 h3 h4
    by_cases hmem : item.channelId ∈ seen
    · simpa [collectItems, hmem] using ih seen acc h1 h2 h3 h4
    · have hcid : item.channelId ∉ acc.map (fun c => c.channel_id) := by
        intro hin
        rcases List.mem_map.mp hin with ⟨c, hc, he⟩
        exact hmem (he ▸ h2 c hc)
      simp only [collectItems, hmem, if_false, ite_false]
      apply ih
      · rw [List.map_append]
        simp [List.nodup_append, h1, hcid, mkCandidate]
      · intro c hc
        rcases List.mem_append.mp hc with hc | hc
        · exact List.mem_cons_of_mem _ (h2 c hc)
        · rcases List.mem_singleton.mp hc with rfl
          exact List.mem_cons_self _ _
      · exact List.mem_cons_of_mem _ h3
      · rw [List.map_append]
        intro hin
        rcases List.mem_append.mp hin with hin | hin
        · exact h4 hin
        · rcases List.mem_singleton.mp hin with rfl
          exact hmem h3

theorem collectResponses_inv (t : String) (responses : List (List SearchItem)) :
    ∀ (seen : List String) (acc : List ChannelInfo),
      (acc.map (fun c => c.channel_id)).Nodup →
      (∀ c ∈ acc, c.channel_id ∈ seen) →
      t ∈ seen →
      t ∉ acc.map (fun c => c.channel_id) →
      ((collectResponses seen acc responses).2.map (fun c => c.channel_id)).Nodup ∧
      (∀ c ∈ (collectResponses seen acc responses).2,
        c.channel_id ∈ (collectResponses seen acc responses).1) ∧
      t ∈ (collectResponses seen acc responses).1 ∧
      t ∉ (collectResponses seen acc responses).2.map (fun c => c.channel_id) := by
  induction responses with
  | nil =>
    intro seen acc h1 h2 h3 h4
    exact ⟨h1, h2, h3, h4⟩
  | cons items rest ih =>
    intro seen acc h1 h2 h3 h4
    have h := collectItems_inv t items seen acc h1 h2 h3 h4
    exact ih _ _ h.1 h.2.1 h.2.2.1 h.2.2.2

/-- C10: the candidate list that `find_similar_channels` hands to ranking
contains no duplicate channel ids and never the target's own channel id:
the de-duplication set is seeded with the target's id and a hit is
appended only when unseen. -/
theorem candidates_distinct_and_exclude_target (target_channel_id : String)
    (responses : List (List SearchItem)) :
    ((collect_candidates target_channel_id responses).map
      (fun c => c.channel_id)).Nodup ∧
    target_channel_id ∉
      (collect_candidates target_channel_id responses).map
        (fun c => c.channel_id) := by
  have h := collectResponses_inv target_channel_id responses [target_channel_id] []
    (by simp) (by simp) (List.mem_singleton_self _) (by simp)
  exact ⟨h.1, h.2.2.2⟩

end YT
